import Mathlib

/-!
Verification development for the denops-router library.

The definitions below are a shallow embedding of the TypeScript sources:

* `src/router.ts` — the `Router` class: constructor, the private `#match`,
  `#load`, `#save` methods, `bufname`, `open`, `handle`, `handleFallback`
  and `dispatch`.
* `src/opener.ts` — `Split`, `BufferOpener`, `getOpenCommand`, `parseMods`,
  `open`, `preload`.
* `src/types.ts` — the `Handler` interface.

The buffer-name codec (`format` / `parse`) lives in the external dependency
`@denops/std/bufname`; it is modelled here concretely (percent-encoding of
the reserved characters, first-occurrence splitting on the `://`, `;` and
`#` delimiters), following that library's documented behaviour.

Host (Vim/Neovim) effects are made explicit: buffer-local options and
variables become fields of `BufState`, issued ex-commands become values of
`HostCmd` / lists of words, and the `BufWriteCmd` autocmd registered by
`#load` becomes an `Intercept` value stored on the buffer.  Handler
callbacks are modelled as functions returning `Except Err Unit`: the
router only observes whether they succeed or throw.
-/

namespace DenopsRouter

/-- Error values thrown by the router and its collaborators.  The source
throws plain `Error` objects with human-readable messages; here each throw
site gets its own constructor, and `other` stands for arbitrary errors
thrown by handler callbacks. -/
inductive Err where
  /-- `parse` of `@denops/std/bufname` rejects a string without a
  `scheme://` part. -/
  | malformedName (s : String)
  /-- `Router.#match`: `Invalid operation for {bufname}` (scheme mismatch). -/
  | invalidScheme (bufname : String)
  /-- `Router.#match`: `There is no valid handler for a buffer {bufname}`. -/
  | noHandlerBuffer (bufname : String)
  /-- `Router.bufname`: `There is no handler for a path {path}`. -/
  | noHandlerPath (path : String)
  /-- `Router.#save`: `There is no valid writable handler for {afile}`. -/
  | notWritable (afile : String)
  /-- `parseMods` in `src/opener.ts`: `invalid operation`. -/
  | invalidModifier
  /-- An arbitrary error thrown by a handler callback. -/
  | other (msg : String)
deriving DecidableEq, Repr

/-! ## Percent-encoding, string splitting (model of the bufname codec) -/

/-- Characters that `format` percent-encodes because they act as
delimiters in the `scheme://expr;params#fragment` grammar. -/
def reservedChars : List Char := ['%', ';', '#', '&', '=']

/-- Hexadecimal digit for a value below 16. -/
def hexDigit (n : Nat) : Char :=
  if n < 10 then Char.ofNat ('0'.toNat + n) else Char.ofNat ('A'.toNat + n - 10)

/-- Percent-encode a single character. -/
def encChar (c : Char) : List Char :=
  if c ∈ reservedChars then
    ['%', hexDigit (c.toNat / 16), hexDigit (c.toNat % 16)]
  else [c]

/-- Percent-encode a character list. -/
def encL : List Char → List Char
  | [] => []
  | c :: cs => encChar c ++ encL cs

/-- Test for a hexadecimal digit (upper-case letters, as produced by
`hexDigit`). -/
def isHexDig (c : Char) : Bool :=
  ('0' ≤ c && c ≤ '9') || ('A' ≤ c && c ≤ 'F')

/-- Value of a hexadecimal digit. -/
def hexVal (c : Char) : Nat :=
  if c ≤ '9' then c.toNat - '0'.toNat else c.toNat - 'A'.toNat + 10

/-- Percent-decode a character list; a `%` not followed by two hex digits
is passed through unchanged. -/
def decL : List Char → List Char
  | [] => []
  | '%' :: h1 :: h2 :: rest =>
    if isHexDig h1 && isHexDig h2 then
      Char.ofNat (hexVal h1 * 16 + hexVal h2) :: decL rest
    else '%' :: decL (h1 :: h2 :: rest)
  | c :: rest => c :: decL rest

/-- Boolean test whether the first list is an initial segment of the
second. -/
def startsWithL : List Char → List Char → Bool
  | [], _ => true
  | _ :: _, [] => false
  | c :: cs, d :: ds => c == d && startsWithL cs ds

/-- Split a character list at the first occurrence of `sep` (a nonempty
separator); returns the parts before and after it, or `none` when `sep`
does not occur. -/
def splitFirstSeq (sep : List Char) : List Char → Option (List Char × List Char)
  | [] => Option.none
  | c :: cs =>
    if startsWithL sep (c :: cs) then some ([], (c :: cs).drop sep.length)
    else
      match splitFirstSeq sep cs with
      | Option.none => Option.none
      | some (a, b) => some (c :: a, b)

/-- Split a character list at the first occurrence of the character `c`:
the part before it, and the part after it when `c` occurs. -/
def breakAtChar (c : Char) : List Char → List Char × Option (List Char)
  | [] => ([], Option.none)
  | x :: xs =>
    if x = c then ([], some xs)
    else
      let r := breakAtChar c xs
      (x :: r.1, r.2)

/-- Split a character list on every occurrence of `&`. -/
def splitAmp : List Char → List (List Char)
  | [] => [[]]
  | c :: cs =>
    if c = '&' then [] :: splitAmp cs
    else
      match splitAmp cs with
      | [] => [[c]]
      | x :: xs => (c :: x) :: xs

/-! ## Buffer names (model of the Bufname type of the bufname codec) -/

/-- Parameters of a buffer name: an ordered association of keys with one
or more values (the source's `BufnameParams` record; a repeated key is a
multi-valued parameter). -/
def BufnameParams := List (String × List String)
deriving DecidableEq, Repr

/-- Parsed buffer name: `scheme://expr;params#fragment`. -/
structure Bufname where
  scheme : String
  expr : String
  params : Option BufnameParams
  fragment : Option String
deriving DecidableEq, Repr

/-- Encoded `key=value` pairs of the parameter section, one list entry
per value of a multi-valued key. -/
def pairsEnc : List (String × List String) → List (List Char)
  | [] => []
  | (k, vs) :: rest => vs.map (fun v => encL k.data ++ '=' :: encL v.data) ++ pairsEnc rest

/-- Join encoded pairs with `&`. -/
def joinAmp : List (List Char) → List Char
  | [] => []
  | [x] => x
  | x :: xs => x ++ '&' :: joinAmp xs

/-- Character-level rendering of the parameter section. -/
def fmtParams (ps : BufnameParams) : List Char := joinAmp (pairsEnc ps)

/-- Formatter of the bufname codec: renders a `Bufname` to a string.  The
`expr`, parameter keys and values and the fragment are percent-encoded, so
the `://`, `;`, `&`, `=` and `#` delimiters of the output always come from
the structure itself. -/
def format (b : Bufname) : String :=
  String.mk (b.scheme.data ++ ':' :: '/' :: '/' :: encL b.expr.data
    ++ (match b.params with
        | Option.none => []
        | some ps => ';' :: fmtParams ps)
    ++ (match b.fragment with
        | Option.none => []
        | some f => '#' :: encL f.data))

/-- Group the decoded `key=value` pairs of a parameter section, merging
repeated keys into a multi-valued parameter (insertion order kept). -/
def addParam : List (String × List String) → String → String → List (String × List String)
  | [], k, v => [(k, [v])]
  | (k1, vs) :: rest, k, v =>
    if k1 = k then (k1, vs ++ [v]) :: rest else (k1, vs) :: addParam rest k v

/-- Parse the parameter section of a buffer name. -/
def parseParamsL (l : List Char) : BufnameParams :=
  (splitAmp l).foldl
    (fun acc kv =>
      let r := breakAtChar '=' kv
      addParam acc (String.mk (decL r.1)) (String.mk (decL (r.2.getD []))))
    []

/-- Parser of the bufname codec: splits at the first `://`, then at the
first `#` (fragment), then at the first `;` (parameters), and
percent-decodes the pieces.  Fails with `malformedName` when the string
has no `scheme://` part or an empty scheme. -/
def parseAsBufname (s : String) : Except Err Bufname :=
  match splitFirstSeq [':', '/', '/'] s.data with
  | Option.none => .error (.malformedName s)
  | some (sch, rest) =>
    if sch.isEmpty then .error (.malformedName s)
    else
      let bodyFrag := breakAtChar '#' rest
      let exprPs := breakAtChar ';' bodyFrag.1
      .ok { scheme := String.mk sch
            expr := String.mk (decL exprPs.1)
            params := exprPs.2.map parseParamsL
            fragment := bodyFrag.2.map (fun f => String.mk (decL f)) }

/-! ## Handlers and host-side buffer state -/

/-- Argument of handler callbacks (the `Location` interface of
`src/types.ts`): a buffer number together with the parsed buffer name. -/
structure Buffer where
  bufnr : Nat
  bufname : Bufname

/-- An action callback of a handler (`src/types.ts`); its untyped
parameter record is modelled as a string association list. -/
def Action := Buffer → List (String × String) → Except Err Unit

/-- The `Handler` interface of `src/types.ts`: a required `load`, an
optional `save` (its presence decides writability) and optional named
actions.  The callbacks are arbitrary user code; the router only observes
whether they succeed or throw, so they are modelled as `Except`-valued
functions. -/
structure Handler where
  load : Buffer → Except Err Unit
  save : Option (Buffer → Except Err Unit) := Option.none
  actions : List (String × Action) := []

/-- A `BufWriteCmd` autocmd registered by `Router.#load` for one specific
buffer: `autocmd BufWriteCmd <buffer> call denops#request(plugin, method,
[bufnr, file])`. -/
structure Intercept where
  plugin : String
  method : String
  bufnr : Nat
  file : String
deriving DecidableEq, Repr

/-- Host-side per-buffer state touched by the router: buffer content,
buffer-local variables (`vars.b`), the local options set by `#load` /
`#save`, and the write-intercept autocmds attached to the buffer. -/
structure BufState where
  content : List String := []
  vars : List (String × String) := []
  swapfile : Bool := true
  modified : Bool := false
  modifiable : Bool := true
  readonly : Bool := false
  buftype : String := ""
  intercepts : List Intercept := []
deriving DecidableEq, Repr

/-- Set a buffer-local variable (overwrite if present, append if new). -/
def setVar : List (String × String) → String → String → List (String × String)
  | [], k, v => [(k, v)]
  | (k1, v1) :: rest, k, v =>
    if k1 = k then (k1, v) :: rest else (k1, v1) :: setVar rest k v

/-! ## The Router (src/router.ts) -/

/-- State of a `Router` instance: the fixed scheme, the path-to-handler
map (`#handlers`, an insertion-ordered map) and the optional fallback
handler (`#defaultHandler`). -/
structure Router where
  scheme : String
  handlers : List (String × Handler)
  defaultHandler : Option Handler

/-- The `Router` constructor (`src/router.ts` lines 37-40).  The source
constructor merely stores the scheme and creates an empty handler map; it
contains no validation and cannot throw.  The `Option` result makes the
(absent) failure channel of construction expressible. -/
def mkRouter (scheme : String) : Option Router :=
  some { scheme := scheme, handlers := [], defaultHandler := Option.none }

/-- `Router.handle(path, handler)`: `Map.set` semantics — overwrite the
entry for `path` when present, append otherwise. -/
def setHandler : List (String × Handler) → String → Handler → List (String × Handler)
  | [], p, h => [(p, h)]
  | (p1, h1) :: rest, p, h =>
    if p1 = p then (p1, h) :: rest else (p1, h1) :: setHandler rest p h

/-- `Router.handle` method. -/
def Router.handle (r : Router) (path : String) (h : Handler) : Router :=
  { r with handlers := setHandler r.handlers path h }

/-- `Router.handleFallback` method. -/
def Router.handleFallback (r : Router) (h : Handler) : Router :=
  { r with defaultHandler := some h }

/-- Result of `Router.#match`: the parsed name, the path the handler is
registered under (for the fallback: the parsed expr), and the handler. -/
structure MatchResult where
  bufname : Bufname
  path : String
  handler : Handler

/-- The `for (const [path, handler] of this.#handlers.entries())` loop of
`Router.#match`: first entry whose key equals `expr`. -/
def findEntry : List (String × Handler) → String → Option (String × Handler)
  | [], _ => Option.none
  | (p, h) :: rest, expr => if p = expr then some (p, h) else findEntry rest expr

/-- `Router.#match` (`src/router.ts` lines 42-60): parse the buffer name,
reject a foreign scheme, return the exactly matching registration, else
the fallback handler under the parsed expr, else fail. -/
def Router.matchBuf (r : Router) (bufname : String) : Except Err MatchResult :=
  match parseAsBufname bufname with
  | .error e => .error e
  | .ok parsed =>
    if parsed.scheme ≠ r.scheme then .error (.invalidScheme bufname)
    else
      match findEntry r.handlers parsed.expr with
      | some (path, handler) => .ok { bufname := parsed, path := path, handler := handler }
      | Option.none =>
        match r.defaultHandler with
        | some handler => .ok { bufname := parsed, path := parsed.expr, handler := handler }
        | Option.none => .error (.noHandlerBuffer bufname)

/-- `Router.#load` (`src/router.ts` lines 72-91), the `BufReadCmd`
entry point.  Resolution errors and errors thrown by `handler.load`
propagate (there is no catch in the source); on success the marker
variable is written, `swapfile` and `modified` are disabled, and the
buffer becomes an `acwrite` buffer with a per-buffer write intercept when
the handler defines `save`, or non-modifiable and read-only otherwise. -/
def Router.load (r : Router) (plugin pfx : String) (abuf : Nat) (afile : String)
    (b : BufState) : Except Err BufState :=
  match r.matchBuf afile with
  | .error e => .error e
  | .ok m =>
    match m.handler.load { bufnr := abuf, bufname := m.bufname } with
    | .error e => .error e
    | .ok _ =>
      let b1 := { b with
        vars := setVar b.vars "denops_router_handler_path" m.path
        swapfile := false
        modified := false }
      if m.handler.save.isSome then
        .ok { b1 with
          intercepts := b1.intercepts
            ++ [{ plugin := plugin, method := pfx ++ ":internal:save",
                  bufnr := abuf, file := afile }]
          buftype := "acwrite" }
      else
        .ok { b1 with modifiable := false, readonly := true }

/-- `Router.#save` (`src/router.ts` lines 101-108), the `BufWriteCmd`
entry point: resolve the handler, fail when it defines no `save`, invoke
`save`, and clear `modified` on success.  Errors thrown by `save`
propagate and leave the buffer untouched. -/
def Router.save (r : Router) (abuf : Nat) (afile : String) (b : BufState) :
    Except Err BufState :=
  match r.matchBuf afile with
  | .error e => .error e
  | .ok m =>
    match m.handler.save with
    | Option.none => .error (.notWritable afile)
    | some sv =>
      match sv { bufnr := abuf, bufname := m.bufname } with
      | .error e => .error e
      | .ok _ => .ok { b with modified := false }

/-- Host semantics of a failed request: when an operation throws, the
buffer keeps its previous state. -/
def applyOutcome (x : Except Err BufState) (b : BufState) : BufState :=
  match x with
  | .ok b2 => b2
  | .error _ => b

/-- `Router.bufname` (`src/router.ts` lines 142-156): fails unless the
path is registered or a fallback exists, then formats the name with the
router's fixed scheme and the requested path. -/
def Router.bufname (r : Router) (path : String) (params : Option BufnameParams)
    (fragment : Option String) : Except Err String :=
  if (findEntry r.handlers path).isNone && r.defaultHandler.isNone then
    .error (.noHandlerPath path)
  else
    .ok (format { scheme := r.scheme, expr := path, params := params, fragment := fragment })

/-! ## The opener (src/opener.ts) -/

/-- The `Split` union of `src/opener.ts`; `blank` is the source's `""`
and `noSplit` its `"none"`, the others are the `split-...` literals. -/
inductive Split where
  | blank
  | noSplit
  | top
  | above
  | below
  | bottom
  | leftmost
  | left
  | right
  | rightmost
  | tab
deriving DecidableEq, Repr

/-- The `BufferOpener` interface: both fields optional. -/
structure BufferOpener where
  reuse : Option Bool := Option.none
  split : Option Split := Option.none

/-- `getOpenCommand` of `src/opener.ts`: the ex-command words used to
attach a buffer for each split style. -/
def getOpenCommand : Option Split → List String
  | Option.none | some .blank | some .noSplit => ["edit"]
  | some .top => ["topleft", "new"]
  | some .above => ["aboveleft", "new"]
  | some .below => ["belowright", "new"]
  | some .bottom => ["botright", "new"]
  | some .leftmost => ["topleft", "vnew"]
  | some .left => ["aboveleft", "vnew"]
  | some .right => ["belowright", "vnew"]
  | some .rightmost => ["botright", "vnew"]
  | some .tab => ["tabnew"]

/-- Direction-modifier keywords recognized by the scan loop of
`parseMods`. -/
def dirWords : List String :=
  ["aboveleft", "leftabove", "belowright", "rightbelow", "topleft", "botright"]

/-- Split a character list on every occurrence of a space, the semantics
of the JavaScript `mods.split(" ")` call in `parseMods` (adjacent
separators yield empty words). -/
def splitSp : List Char → List (List Char)
  | [] => [[]]
  | c :: cs =>
    if c = ' ' then [] :: splitSp cs
    else
      match splitSp cs with
      | [] => [[c]]
      | x :: xs => (c :: x) :: xs

/-- The word list of a modifier string. -/
def modWords (m : String) : List String := (splitSp m.data).map String.mk

/-- The keyword scan loop of `parseMods`: walk the space-separated words,
remembering the last orientation keyword (`tab` / `horizontal` /
`vertical`) and the last direction keyword; every other word is ignored. -/
def scanMods (ws : List String) : String × String :=
  ws.foldl
    (fun acc w =>
      if w = "tab" || w = "horizontal" || w = "vertical" then (w, acc.2)
      else if dirWords.contains w then (acc.1, w)
      else acc)
    ("", "")

/-- The final dispatch of `parseMods` on the scanned orientation and
direction keywords, including the trailing `throw new Error("invalid
operation")` for combinations outside the scan loop's range (dead code in
the source, marked there as such). -/
def classifyKw (sk dk : String) : Except Err Split :=
  if sk = "" then
    if dk = "" then .ok .blank
    else if dk = "aboveleft" || dk = "leftabove" then .ok .above
    else if dk = "belowright" || dk = "rightbelow" then .ok .below
    else if dk = "topleft" then .ok .top
    else if dk = "botright" then .ok .bottom
    else .error .invalidModifier
  else if sk = "tab" then .ok .tab
  else if sk = "horizontal" then
    if dk = "" || dk = "aboveleft" || dk = "leftabove" then .ok .above
    else if dk = "belowright" || dk = "rightbelow" then .ok .below
    else if dk = "topleft" then .ok .top
    else if dk = "botright" then .ok .bottom
    else .error .invalidModifier
  else if sk = "vertical" then
    if dk = "" || dk = "aboveleft" || dk = "leftabove" then .ok .left
    else if dk = "belowright" || dk = "rightbelow" then .ok .right
    else if dk = "topleft" then .ok .leftmost
    else if dk = "botright" then .ok .rightmost
    else .error .invalidModifier
  else .error .invalidModifier

/-- `parseMods` of `src/opener.ts` (lines 104-193): classify a host
modifier string into a `Split`. -/
def parseMods (mods : Option String) : Except Err Split :=
  match mods with
  | Option.none => .ok .blank
  | some m =>
    if m = "" then .ok .blank
    else
      let r := scanMods (modWords m)
      classifyKw r.1 r.2

/-- Window-layout view of the host needed by the opener: which window (if
any) currently displays a buffer of a given name (`fn.bufwinnr`; negative
when none). -/
structure HostWin where
  bufwinnr : String → Int

/-- The `open` function of `src/opener.ts` (lines 202-222): the list of
ex-commands (as word lists) issued to attach `bufname` to a window; either
a fresh split/edit with the (host-escaped) buffer name, or a jump to the
window already displaying it when `reuse` is set. -/
def openEffect (host : HostWin) (bufname : String) (opener : Option BufferOpener) :
    List (List String) :=
  let o := opener.getD {}
  let winid : Int := if o.reuse.getD false then host.bufwinnr bufname else -1
  if winid < 0 then [getOpenCommand o.split ++ [bufname]]
  else [[toString winid, "wincmd", "w"]]

/-- `Router.open` (`src/router.ts` lines 170-180): compute the buffer
name (which fails first when the path has no handler and no fallback is
set), then attach a window for it; returns the name together with the
host commands issued. -/
def Router.open (r : Router) (host : HostWin) (path : String)
    (params : Option BufnameParams) (fragment : Option String)
    (opener : Option BufferOpener) : Except Err (String × List (List String)) :=
  match r.bufname path params fragment with
  | .error e => .error e
  | .ok n => .ok (n, openEffect host n opener)

/-- `Router.preload` (`src/router.ts` lines 193-202): compute the buffer
name, then load the buffer in the background (`bufadd` + `bufload`);
returns the name. -/
def Router.preload (r : Router) (path : String) (params : Option BufnameParams)
    (fragment : Option String) : Except Err String :=
  match r.bufname path params fragment with
  | .error e => .error e
  | .ok n => .ok n

/-! ## The dispatcher (Router.dispatch, src/router.ts lines 290-364) -/

/-- The five dispatcher methods installed by `Router.dispatch`; each tag
stands for the closure registered under the corresponding name (the
closures validate their untyped arguments and delegate to `Router.open`,
`Router.preload`, `Router.#load`, `Router.#save` and `Router.action`). -/
inductive RouterMethod where
  | openM
  | preloadM
  | internalLoad
  | internalSave
  | actionM
deriving DecidableEq, Repr

/-- The names under which `Router.dispatch` installs its methods, for a
given method-name prefix. -/
def routerKeys (pfx : String) : List String :=
  [pfx ++ ":open", pfx ++ ":preload", pfx ++ ":internal:load",
   pfx ++ ":internal:save", pfx ++ ":action"]

/-- Which router method (if any) the override object of `Router.dispatch`
registers under a given key. -/
def methodOfKey (pfx k : String) : Option RouterMethod :=
  if k = pfx ++ ":open" then some .openM
  else if k = pfx ++ ":preload" then some .preloadM
  else if k = pfx ++ ":internal:load" then some .internalLoad
  else if k = pfx ++ ":internal:save" then some .internalSave
  else if k = pfx ++ ":action" then some .actionM
  else Option.none

/-- Ex-commands issued by `Router.dispatch` before building the
dispatcher: an autocmd group per scheme whose `BufReadCmd` forwards to
the `pfx:internal:load` method. -/
inductive HostCmd where
  | augroupStart (name : String)
  | clearAutocmds
  | bufReadCmd (pat : String) (plugin : String) (method : String)
  | augroupEnd
deriving DecidableEq, Repr

/-- The batched commands of `Router.dispatch` (lines 295-302). -/
def dispatchCmds (r : Router) (plugin pfx : String) : List HostCmd :=
  [.augroupStart ("denops-" ++ plugin ++ "-" ++ r.scheme),
   .clearAutocmds,
   .bufReadCmd (r.scheme ++ "://*") plugin (pfx ++ ":internal:load"),
   .augroupEnd]

/-- `Router.dispatch` (lines 290-364): issue the autocmd registration and
return `{ ...dispatcher, ...override }` — entries of the source
dispatcher (`Sum.inl`) survive unless their key is one of the five router
method names, which are bound to the router's implementations
(`Sum.inr`).  The source dispatcher's entries are opaque host functions,
kept abstract in `α`. -/
def Router.dispatch {α : Type} (r : Router) (plugin : String)
    (dispatcher : String → Option α) (pfx : String) :
    List HostCmd × (String → Option (α ⊕ RouterMethod)) :=
  (dispatchCmds r plugin pfx,
   fun k =>
     match methodOfKey pfx k with
     | some m => some (Sum.inr m)
     | Option.none => (dispatcher k).map Sum.inl)

/-! ## Codec lemmas -/

theorem decL_encChar (c : Char) (l : List Char) :
    decL (encChar c ++ l) = c :: decL l := by
  by_cases h : c ∈ reservedChars
  · simp only [reservedChars, List.mem_cons, List.not_mem_nil, or_false] at h
    rcases h with rfl | rfl | rfl | rfl | rfl <;>
      simp [encChar, reservedChars, hexDigit, decL, isHexDig, hexVal]
  · have hne : c ≠ '%' := by
      intro hc
      exact h (by simp [reservedChars, hc])
    simp only [encChar, if_neg h, List.cons_append, List.nil_append]
    cases l with
    | nil => simp [decL, hne]
    | cons d ds =>
      cases ds with
      | nil => simp [decL, hne]
      | cons e es => simp [decL, hne]

theorem decL_encL (l : List Char) : decL (encL l) = l := by
  induction l with
  | nil => rfl
  | cons c cs ih => rw [encL, decL_encChar, ih]

theorem not_mem_encL (x : Char) (hx : x ∈ reservedChars) (hp : x ≠ '%')
    (l : List Char) : x ∉ encL l := by
  induction l with
  | nil => simp [encL]
  | cons c cs ih =>
    rw [encL]
    intro hmem
    rcases List.mem_append.mp hmem with h1 | h2
    · by_cases h : c ∈ reservedChars
      · simp only [reservedChars, List.mem_cons, List.not_mem_nil, or_false] at h
        simp only [reservedChars, List.mem_cons, List.not_mem_nil, or_false] at hx
        rcases hx with rfl | rfl | rfl | rfl | rfl
        · exact hp rfl
        all_goals (rcases h with rfl | rfl | rfl | rfl | rfl <;> revert h1 <;> decide)
      · rw [encChar, if_neg h] at h1
        simp only [List.mem_singleton] at h1
        exact h (h1 ▸ hx)
    · exact ih h2

theorem hash_not_mem_encL (l : List Char) : '#' ∉ encL l :=
  not_mem_encL '#' (by decide) (by decide) l

theorem semi_not_mem_encL (l : List Char) : ';' ∉ encL l :=
  not_mem_encL ';' (by decide) (by decide) l

theorem eq_not_mem_encL (l : List Char) : '=' ∉ encL l :=
  not_mem_encL '=' (by decide) (by decide) l

theorem amp_not_mem_encL (l : List Char) : '&' ∉ encL l :=
  not_mem_encL '&' (by decide) (by decide) l

theorem mem_joinAmp (x : Char) (xs : List (List Char)) (h : x ∈ joinAmp xs) :
    x = '&' ∨ ∃ l ∈ xs, x ∈ l := by
  induction xs with
  | nil => simp [joinAmp] at h
  | cons a as ih =>
    cases as with
    | nil =>
      simp only [joinAmp] at h
      exact Or.inr ⟨a, by simp, h⟩
    | cons b bs =>
      simp only [joinAmp, List.mem_append, List.mem_cons] at h
      rcases h with h | h | h
      · exact Or.inr ⟨a, by simp, h⟩
      · exact Or.inl h
      · rcases ih h with h1 | ⟨l, hl, hx⟩
        · exact Or.inl h1
        · exact Or.inr ⟨l, by simp [hl], hx⟩

theorem mem_pairsEnc (x : Char) (ps : List (String × List String))
    (l : List Char) (hl : l ∈ pairsEnc ps) (hx : x ∈ l) :
    x = '=' ∨ ∃ s : List Char, x ∈ encL s := by
  induction ps with
  | nil => simp [pairsEnc] at hl
  | cons p rest ih =>
    rw [pairsEnc] at hl
    rcases List.mem_append.mp hl with h1 | h2
    · rcases List.mem_map.mp h1 with ⟨v, _, rfl⟩
      rcases List.mem_append.mp hx with hk | hv
      · exact Or.inr ⟨p.1.data, hk⟩
      · rcases List.mem_cons.mp hv with rfl | hv2
        · exact Or.inl rfl
        · exact Or.inr ⟨v.data, hv2⟩
    · exact ih h2

theorem hash_not_mem_fmtParams (ps : BufnameParams) : '#' ∉ fmtParams ps := by
  intro h
  rcases mem_joinAmp '#' (pairsEnc ps) h with h1 | ⟨l, hl, hx⟩
  · exact absurd h1 (by decide)
  · rcases mem_pairsEnc '#' ps l hl hx with h2 | ⟨s, hs⟩
    · exact absurd h2 (by decide)
    · exact hash_not_mem_encL s hs

theorem startsWithL_append (s t : List Char) : startsWithL s (s ++ t) = true := by
  induction s with
  | nil => rfl
  | cons c cs ih => simp [startsWithL, ih]

theorem splitFirstSeq_append (t a b : List Char) (h : ':' ∉ a) :
    splitFirstSeq (':' :: t) (a ++ (':' :: t) ++ b) = some (a, b) := by
  induction a with
  | nil =>
    show splitFirstSeq (':' :: t) ((':' :: t) ++ b) = some ([], b)
    rw [List.cons_append, splitFirstSeq]
    rw [if_pos (by rw [← List.cons_append]; exact startsWithL_append _ _)]
    rw [← List.cons_append, List.drop_left]
  | cons c cs ih =>
    have hc : c ≠ ':' := fun hc => h (by simp [hc])
    have hcs : ':' ∉ cs := fun hm => h (by simp [hm])
    have hsw : ¬ startsWithL (':' :: t) (c :: (cs ++ (':' :: t) ++ b)) = true := by
      simp only [startsWithL, Bool.and_eq_true, beq_iff_eq]
      exact fun hand => hc hand.1.symm
    show splitFirstSeq (':' :: t) ((c :: cs) ++ (':' :: t) ++ b) = some (c :: cs, b)
    rw [show (c :: cs) ++ (':' :: t) ++ b = c :: (cs ++ (':' :: t) ++ b) by simp]
    rw [splitFirstSeq, if_neg hsw, ih hcs]

theorem breakAtChar_not_mem (c : Char) (l : List Char) (h : c ∉ l) :
    breakAtChar c l = (l, Option.none) := by
  induction l with
  | nil => rfl
  | cons x xs ih =>
    have hx : x ≠ c := fun he => h (by simp [he])
    have hxs : c ∉ xs := fun hm => h (by simp [hm])
    simp [breakAtChar, hx, ih hxs]

theorem breakAtChar_append (c : Char) (a b : List Char) (h : c ∉ a) :
    breakAtChar c (a ++ c :: b) = (a, some b) := by
  induction a with
  | nil => simp [breakAtChar]
  | cons x xs ih =>
    have hx : x ≠ c := fun he => h (by simp [he])
    have hxs : c ∉ xs := fun hm => h (by simp [hm])
    simp [breakAtChar, hx, ih hxs]

theorem mk_data (s : String) : String.mk s.data = s := by
  cases s
  rfl

theorem parse_scheme_tail (sch tail : List Char) (hne : sch ≠ []) (h2 : ':' ∉ sch) :
    parseAsBufname (String.mk ((sch ++ [':', '/', '/']) ++ tail))
      = .ok { scheme := String.mk sch
              expr := String.mk (decL (breakAtChar ';' (breakAtChar '#' tail).1).1)
              params := (breakAtChar ';' (breakAtChar '#' tail).1).2.map parseParamsL
              fragment := (breakAtChar '#' tail).2.map (fun f => String.mk (decL f)) } := by
  have hsp : splitFirstSeq [':', '/', '/'] ((sch ++ [':', '/', '/']) ++ tail)
      = some (sch, tail) := splitFirstSeq_append ['/', '/'] sch tail h2
  have hie : sch.isEmpty = false := by
    cases sch with
    | nil => exact absurd rfl hne
    | cons c cs => rfl
  rw [parseAsBufname]
  rw [show (String.mk ((sch ++ [':', '/', '/']) ++ tail)).data
      = (sch ++ [':', '/', '/']) ++ tail from rfl]
  rw [hsp]
  simp [hie]

theorem parse_format (b : Bufname) (h1 : b.scheme ≠ "") (h2 : ':' ∉ b.scheme.data) :
    parseAsBufname (format b)
      = .ok { scheme := b.scheme, expr := b.expr,
              params := b.params.map (fun ps => parseParamsL (fmtParams ps)),
              fragment := b.fragment } := by
  obtain ⟨sch, ex, pso, fro⟩ := b
  simp only at h1 h2 ⊢
  have hne : sch.data ≠ [] := by
    intro hd
    apply h1
    rw [← mk_data sch, hd]
  cases pso with
  | none =>
    cases fro with
    | none =>
      have hfmt : format ⟨sch, ex, Option.none, Option.none⟩
          = String.mk ((sch.data ++ [':', '/', '/']) ++ encL ex.data) := by
        rw [format]
        simp
      rw [hfmt, parse_scheme_tail _ _ hne h2,
          breakAtChar_not_mem '#' _ (hash_not_mem_encL ex.data)]
      rw [breakAtChar_not_mem ';' _ (semi_not_mem_encL ex.data)]
      simp [decL_encL, mk_data]
    | some f =>
      have hfmt : format ⟨sch, ex, Option.none, some f⟩
          = String.mk ((sch.data ++ [':', '/', '/'])
              ++ (encL ex.data ++ '#' :: encL f.data)) := by
        rw [format]
        simp
      rw [hfmt, parse_scheme_tail _ _ hne h2,
          breakAtChar_append '#' _ _ (hash_not_mem_encL ex.data)]
      rw [breakAtChar_not_mem ';' _ (semi_not_mem_encL ex.data)]
      simp [decL_encL, mk_data]
  | some ps =>
    have hhash : '#' ∉ encL ex.data ++ ';' :: fmtParams ps := by
      intro hm
      rcases List.mem_append.mp hm with hm1 | hm2
      · exact hash_not_mem_encL _ hm1
      · rcases List.mem_cons.mp hm2 with he | hm3
        · exact absurd he (by decide)
        · exact hash_not_mem_fmtParams ps hm3
    cases fro with
    | none =>
      have hfmt : format ⟨sch, ex, some ps, Option.none⟩
          = String.mk ((sch.data ++ [':', '/', '/'])
              ++ (encL ex.data ++ ';' :: fmtParams ps)) := by
        rw [format]
        simp
      rw [hfmt, parse_scheme_tail _ _ hne h2, breakAtChar_not_mem '#' _ hhash]
      rw [breakAtChar_append ';' _ _ (semi_not_mem_encL ex.data)]
      simp [decL_encL, mk_data]
    | some f =>
      have hfmt : format ⟨sch, ex, some ps, some f⟩
          = String.mk ((sch.data ++ [':', '/', '/'])
              ++ ((encL ex.data ++ ';' :: fmtParams ps) ++ '#' :: encL f.data)) := by
        rw [format]
        simp
      rw [hfmt, parse_scheme_tail _ _ hne h2, breakAtChar_append '#' _ _ hhash]
      rw [breakAtChar_append ';' _ _ (semi_not_mem_encL ex.data)]
      simp [decL_encL, mk_data]

/-! ## Router lemmas -/

theorem findEntry_eq_lookup (hs : List (String × Handler)) (k : String) :
    findEntry hs k =
      match List.lookup k hs with
      | some h => some (k, h)
      | Option.none => Option.none := by
  induction hs with
  | nil => rfl
  | cons e rest ih =>
    obtain ⟨p, h⟩ := e
    by_cases hp : p = k
    · subst hp
      simp [findEntry, List.lookup]
    · have hk : ¬ (k == p) = true := by
        simp [beq_iff_eq]
        exact fun he => hp he.symm
      simp only [findEntry, if_neg hp, List.lookup, hk]
      exact ih

theorem lookup_setVar (vs : List (String × String)) (k v : String) :
    List.lookup k (setVar vs k v) = some v := by
  induction vs with
  | nil => simp [setVar, List.lookup]
  | cons e rest ih =>
    obtain ⟨k1, v1⟩ := e
    by_cases hk : k1 = k
    · subst hk
      simp [setVar, List.lookup]
    · have hk2 : ¬ (k == k1) = true := by
        simp [beq_iff_eq]
        exact fun he => hk he.symm
      simp only [setVar, if_neg hk, List.lookup, hk2]
      exact ih

theorem setHandler_not_found (hs : List (String × Handler)) (p : String) (h : Handler)
    (hn : findEntry hs p = Option.none) : setHandler hs p h = hs ++ [(p, h)] := by
  induction hs with
  | nil => rfl
  | cons e rest ih =>
    obtain ⟨p1, h1⟩ := e
    by_cases hp : p1 = p
    · rw [findEntry, if_pos hp] at hn
      exact absurd hn (by simp)
    · rw [findEntry, if_neg hp] at hn
      rw [setHandler, if_neg hp, ih hn]
      rfl

theorem findEntry_append_of_none (hs l : List (String × Handler)) (p : String)
    (hn : findEntry hs p = Option.none) : findEntry (hs ++ l) p = findEntry l p := by
  induction hs with
  | nil => rfl
  | cons e rest ih =>
    obtain ⟨p1, h1⟩ := e
    by_cases hp : p1 = p
    · rw [findEntry, if_pos hp] at hn
      exact absurd hn (by simp)
    · rw [findEntry, if_neg hp] at hn
      rw [List.cons_append, findEntry, if_neg hp]
      exact ih hn

theorem string_append_ne (p a b : String) (h : a ≠ b) : p ++ a ≠ p ++ b := by
  intro he
  apply h
  have hd : p.data ++ a.data = p.data ++ b.data := congrArg String.data he
  have hab : a.data = b.data := List.append_cancel_left hd
  rw [← mk_data a, ← mk_data b, hab]

/-! ## Precedence table of parseMods -/

/-- Split style described by the specification's precedence rule, as a
function of the last orientation keyword and the last direction keyword: a
direction combined with `vertical` gives the left/right/leftmost/rightmost
variant, combined with no orientation or `horizontal` the
above/below/top/bottom variant, and `tab` overrides any direction. -/
def modsTable (sk dk : String) : Split :=
  if sk = "tab" then .tab
  else if sk = "vertical" then
    if dk = "topleft" then .leftmost
    else if dk = "botright" then .rightmost
    else if dk = "belowright" || dk = "rightbelow" then .right
    else .left
  else if sk = "" && dk = "" then .blank
  else if dk = "topleft" then .top
  else if dk = "botright" then .bottom
  else if dk = "belowright" || dk = "rightbelow" then .below
  else .above

/-- Orientation keywords the scan loop can store. -/
def skRange : List String := ["", "tab", "horizontal", "vertical"]

/-- Direction keywords the scan loop can store. -/
def dkRange : List String := "" :: dirWords

theorem scanMods_range (ws : List String) (acc : String × String)
    (ha : acc.1 ∈ skRange ∧ acc.2 ∈ dkRange) :
    (ws.foldl
      (fun acc w =>
        if w = "tab" || w = "horizontal" || w = "vertical" then (w, acc.2)
        else if dirWords.contains w then (acc.1, w)
        else acc)
      acc).1 ∈ skRange
    ∧ (ws.foldl
      (fun acc w =>
        if w = "tab" || w = "horizontal" || w = "vertical" then (w, acc.2)
        else if dirWords.contains w then (acc.1, w)
        else acc)
      acc).2 ∈ dkRange := by
  induction ws generalizing acc with
  | nil => exact ha
  | cons w rest ih =>
    rw [List.foldl_cons]
    apply ih
    by_cases h1 : w = "tab" || w = "horizontal" || w = "vertical"
    · rw [if_pos h1]
      refine ⟨?_, ha.2⟩
      rcases Bool.or_eq_true_iff.mp h1 with h2 | h3
      · rcases Bool.or_eq_true_iff.mp h2 with h4 | h5
        · simp [skRange, decide_eq_true_eq.mp h4]
        · simp [skRange, decide_eq_true_eq.mp h5]
      · simp [skRange, decide_eq_true_eq.mp h3]
    · rw [if_neg h1]
      by_cases h2 : dirWords.contains w
      · rw [if_pos h2]
        refine ⟨ha.1, ?_⟩
        have : w ∈ dirWords := List.elem_iff.mp h2
        simp [dkRange, this]
      · rw [if_neg h2]
        exact ha

theorem classifyKw_eq_table (sk dk : String)
    (hs : sk ∈ skRange) (hd : dk ∈ dkRange) :
    classifyKw sk dk = .ok (modsTable sk dk) := by
  simp only [skRange, dkRange, dirWords, List.mem_cons, List.not_mem_nil, or_false] at hs hd
  rcases hs with rfl | rfl | rfl | rfl <;>
    rcases hd with rfl | rfl | rfl | rfl | rfl | rfl | rfl <;> rfl

/-! ## Concrete fixtures used by witnesses and counterexamples -/

/-- The underlying record built by the `Router` constructor. -/
def newRouter (scheme : String) : Router :=
  { scheme := scheme, handlers := [], defaultHandler := Option.none }

/-- A handler without `save` (read-only after load). -/
def hRead : Handler := { load := fun _ => .ok () }

/-- A handler with `save` (writable after load). -/
def hWrite : Handler :=
  { load := fun _ => .ok (), save := some (fun _ => .ok ()) }

/-- A handler whose `load` throws. -/
def hLoadFail : Handler := { load := fun _ => .error (.other "boom") }

/-- A handler whose `save` throws. -/
def hSaveFail : Handler :=
  { load := fun _ => .ok (), save := some (fun _ => .error (.other "disk full")) }

/-- A fresh host buffer state. -/
def b0 : BufState := {}

/-- A host with no window displaying any buffer. -/
def host0 : HostWin := { bufwinnr := fun _ => -1 }

/-- A source dispatcher with a single foreign entry. -/
def dHello : String → Option Nat :=
  fun s => if s = "hello" then some 3 else Option.none

/-! ## Claims -/

/-- C7 counterexample: the claim says unrecognized modifier combinations
fail with `InvalidModifierError`, but `parseMods` silently ignores every
unrecognized word: on the unrecognized modifier string `frobnicate` it
succeeds and returns the no-split style. -/
theorem parseMods_unrecognized_ok :
    parseMods (some "frobnicate") = .ok Split.blank := by rfl

/-- C7 (amended): `parseMods` never fails; unrecognized words are
ignored, and among the recognized keywords the last orientation keyword
and the last direction keyword win.  On those the claimed precedence rule
holds: a direction combined with `vertical` maps to the corresponding
left/right/leftmost/rightmost variant, combined with no orientation or
with `horizontal` to above/below/top/bottom, and `tab` overrides any
direction. -/
theorem parseMods_precedence (m : String) :
    parseMods (some m)
      = .ok (modsTable (scanMods (modWords m)).1 (scanMods (modWords m)).2) := by
  by_cases hm : m = ""
  · subst hm
    rfl
  · rw [parseMods, if_neg hm]
    have hr := scanMods_range (modWords m) ("", "")
      (by constructor <;> simp [skRange, dkRange])
    exact classifyKw_eq_table _ _ hr.1 hr.2

/-- C8 counterexample: the claim says constructing a `Router` with an
empty scheme fails immediately, but the constructor performs no
validation: with the empty scheme it succeeds and stores the empty
string. -/
theorem mkRouter_empty_scheme_succeeds :
    mkRouter "" = some (newRouter "") := by rfl

/-- C8 (amended): the `Router` constructor never fails; it stores any
scheme, including the empty string, without validation. -/
theorem mkRouter_total (s : String) : mkRouter s = some (newRouter s) := by rfl

/-- C9 counterexample: the claim says the dispatcher returned by
`Router.dispatch` exposes a `setup:command` operation under the
configured prefix, but no such entry is installed: over an empty source
dispatcher the returned dispatcher has no `router:setup:command` entry. -/
theorem dispatch_no_setup_command :
    ((newRouter "foo").dispatch "plug" (fun _ => (Option.none : Option Nat)) "router").2
      "router:setup:command" = Option.none := by rfl

/-- C9 (amended): `Router.dispatch` installs no `setup:command`
operation: whatever the source dispatcher held under
`prefix:setup:command` is passed through unchanged, and the only
router-backed operations are `prefix:open`, `prefix:preload`,
`prefix:internal:load`, `prefix:internal:save` and `prefix:action`. -/
theorem dispatch_setup_untouched (α : Type) (r : Router) (plugin : String)
    (d : String → Option α) (pfx : String) :
    (r.dispatch plugin d pfx).2 (pfx ++ ":setup:command")
      = (d (pfx ++ ":setup:command")).map Sum.inl := by
  have hn : methodOfKey pfx (pfx ++ ":setup:command") = Option.none := by
    rw [methodOfKey,
        if_neg (string_append_ne pfx _ _ (by decide)),
        if_neg (string_append_ne pfx _ _ (by decide)),
        if_neg (string_append_ne pfx _ _ (by decide)),
        if_neg (string_append_ne pfx _ _ (by decide)),
        if_neg (string_append_ne pfx _ _ (by decide))]
  rw [Router.dispatch]
  simp only [hn]

/-- C10: the dispatcher returned by `Router.dispatch` maps every key
other than the five router method names to the same entry as the source
dispatcher, and binds each of the five names to the corresponding router
implementation (router wins on a name collision). -/
theorem dispatch_frame (α : Type) (r : Router) (plugin : String)
    (d : String → Option α) (pfx k : String) :
    (k ∉ routerKeys pfx → (r.dispatch plugin d pfx).2 k = (d k).map Sum.inl)
    ∧ (r.dispatch plugin d pfx).2 (pfx ++ ":open") = some (Sum.inr RouterMethod.openM)
    ∧ (r.dispatch plugin d pfx).2 (pfx ++ ":preload") = some (Sum.inr RouterMethod.preloadM)
    ∧ (r.dispatch plugin d pfx).2 (pfx ++ ":internal:load")
        = some (Sum.inr RouterMethod.internalLoad)
    ∧ (r.dispatch plugin d pfx).2 (pfx ++ ":internal:save")
        = some (Sum.inr RouterMethod.internalSave)
    ∧ (r.dispatch plugin d pfx).2 (pfx ++ ":action") = some (Sum.inr RouterMethod.actionM) := by
  have k1 : methodOfKey pfx (pfx ++ ":open") = some RouterMethod.openM := by
    rw [methodOfKey, if_pos rfl]
  have k2 : methodOfKey pfx (pfx ++ ":preload") = some RouterMethod.preloadM := by
    rw [methodOfKey,
        if_neg (string_append_ne pfx ":preload" ":open" (by decide)),
        if_pos rfl]
  have k3 : methodOfKey pfx (pfx ++ ":internal:load") = some RouterMethod.internalLoad := by
    rw [methodOfKey,
        if_neg (string_append_ne pfx ":internal:load" ":open" (by decide)),
        if_neg (string_append_ne pfx ":internal:load" ":preload" (by decide)),
        if_pos rfl]
  have k4 : methodOfKey pfx (pfx ++ ":internal:save") = some RouterMethod.internalSave := by
    rw [methodOfKey,
        if_neg (string_append_ne pfx ":internal:save" ":open" (by decide)),
        if_neg (string_append_ne pfx ":internal:save" ":preload" (by decide)),
        if_neg (string_append_ne pfx ":internal:save" ":internal:load" (by decide)),
        if_pos rfl]
  have k5 : methodOfKey pfx (pfx ++ ":action") = some RouterMethod.actionM := by
    rw [methodOfKey,
        if_neg (string_append_ne pfx ":action" ":open" (by decide)),
        if_neg (string_append_ne pfx ":action" ":preload" (by decide)),
        if_neg (string_append_ne pfx ":action" ":internal:load" (by decide)),
        if_neg (string_append_ne pfx ":action" ":internal:save" (by decide)),
        if_pos rfl]
  refine ⟨?_, ?_, ?_, ?_, ?_, ?_⟩
  · intro hk
    simp only [routerKeys, List.mem_cons, List.not_mem_nil, or_false, not_or] at hk
    obtain ⟨h1, h2, h3, h4, h5⟩ := hk
    rw [Router.dispatch]
    simp only [methodOfKey, if_neg h1, if_neg h2, if_neg h3, if_neg h4, if_neg h5]
  · rw [Router.dispatch]
    simp only [k1]
  · rw [Router.dispatch]
    simp only [k2]
  · rw [Router.dispatch]
    simp only [k3]
  · rw [Router.dispatch]
    simp only [k4]
  · rw [Router.dispatch]
    simp only [k5]

/-- C10 witness: over the source dispatcher holding `hello`, the entry
`hello` survives unchanged while `router:open` is router-backed. -/
theorem dispatch_frame_witness :
    ((newRouter "foo").dispatch "plug" dHello "router").2 "hello" = some (Sum.inl 3)
    ∧ ((newRouter "foo").dispatch "plug" dHello "router").2 "router:open"
        = some (Sum.inr RouterMethod.openM) := by
  have h := dispatch_frame Nat (newRouter "foo") "plug" dHello "router" "hello"
  exact ⟨(h.1 (by decide)).trans (by rfl), h.2.1⟩

/-- C1 counterexample: the claim says a failing load transitions the
view to LoadFailed (error rendered into the buffer, forced read-only,
error contained), but `Router.#load` has no catch: on a router with no
handler for the requested name the read-signal fails with the resolution
error, and the buffer state is left untouched (no rendering, no
read-only transition). -/
theorem load_error_not_contained :
    Router.load (newRouter "foo") "plug" "router" 1 "foo://missing" b0
      = .error (.noHandlerBuffer "foo://missing")
    ∧ applyOutcome (Router.load (newRouter "foo") "plug" "router" 1 "foo://missing" b0) b0
      = b0 := by
  exact ⟨rfl, rfl⟩

/-- C1 (amended): on any error from resolution or from the handler's
`load`, `onResourceRead` propagates the error to the host caller (the
request fails) and performs no buffer-state change; no error message is
rendered into the view and no read-only transition happens. -/
theorem load_error_propagates (r : Router) (plugin pfx : String) (abuf : Nat)
    (afile : String) (b : BufState) (e : Err) :
    (r.matchBuf afile = .error e →
       Router.load r plugin pfx abuf afile b = .error e
       ∧ applyOutcome (Router.load r plugin pfx abuf afile b) b = b)
    ∧ (∀ m, r.matchBuf afile = .ok m →
        m.handler.load { bufnr := abuf, bufname := m.bufname } = .error e →
        Router.load r plugin pfx abuf afile b = .error e
        ∧ applyOutcome (Router.load r plugin pfx abuf afile b) b = b) := by
  constructor
  · intro hm
    have hl : Router.load r plugin pfx abuf afile b = .error e := by
      simp only [Router.load, hm]
    exact ⟨hl, by rw [hl]; rfl⟩
  · intro m hm hload
    have hl : Router.load r plugin pfx abuf afile b = .error e := by
      simp only [Router.load, hm, hload]
    exact ⟨hl, by rw [hl]; rfl⟩

/-- C1 witness: a handler whose `load` throws `boom` makes the
read-signal fail with exactly that error, leaving the buffer unchanged. -/
theorem load_error_propagates_witness :
    Router.load ((newRouter "foo").handle "p" hLoadFail) "plug" "router" 1 "foo://p" b0
      = .error (.other "boom")
    ∧ applyOutcome
        (Router.load ((newRouter "foo").handle "p" hLoadFail) "plug" "router" 1 "foo://p" b0)
        b0 = b0 := by
  exact (load_error_propagates ((newRouter "foo").handle "p" hLoadFail)
      "plug" "router" 1 "foo://p" b0 (.other "boom")).2
    { bufname := { scheme := "foo", expr := "p",
                   params := Option.none, fragment := Option.none },
      path := "p", handler := hLoadFail }
    rfl rfl

/-- C2: for a buffer name whose scheme equals the router's scheme,
`Router.#match` returns the handler registered under exactly the parsed
path when one exists, else the fallback handler when set, else fails with
the no-handler error. -/
theorem match_resolution (r : Router) (s : String) (parsed : Bufname)
    (hp : parseAsBufname s = .ok parsed) (hs : parsed.scheme = r.scheme) :
    r.matchBuf s =
      match List.lookup parsed.expr r.handlers with
      | some h => .ok { bufname := parsed, path := parsed.expr, handler := h }
      | Option.none =>
        match r.defaultHandler with
        | some h => .ok { bufname := parsed, path := parsed.expr, handler := h }
        | Option.none => .error (.noHandlerBuffer s) := by
  simp only [Router.matchBuf, hp]
  rw [if_neg (by simp [hs])]
  rw [findEntry_eq_lookup]
  cases List.lookup parsed.expr r.handlers with
  | none => rfl
  | some h => rfl

/-- C2 witness: on a router with handlers under `a` and `b`, the name
`foo://a` resolves to the handler registered under exactly `a`. -/
theorem match_resolution_witness :
    ((newRouter "foo").handle "a" hRead |>.handle "b" hWrite).matchBuf "foo://a"
      = .ok { bufname := { scheme := "foo", expr := "a",
                           params := Option.none, fragment := Option.none },
              path := "a", handler := hRead } := by
  have h := match_resolution ((newRouter "foo").handle "a" hRead |>.handle "b" hWrite)
    "foo://a"
    { scheme := "foo", expr := "a", params := Option.none, fragment := Option.none }
    rfl rfl
  simpa using h

/-- C6: when the path is not registered and no fallback is set, both name
construction and `Router.open` fail with the no-handler error; the open
operation produces no host command (no view is created). -/
theorem open_fails_before_effects (r : Router) (host : HostWin) (path : String)
    (params : Option BufnameParams) (fragment : Option String)
    (opener : Option BufferOpener)
    (h1 : findEntry r.handlers path = Option.none)
    (h2 : r.defaultHandler = Option.none) :
    r.bufname path params fragment = .error (.noHandlerPath path)
    ∧ Router.open r host path params fragment opener = .error (.noHandlerPath path) := by
  have hb : r.bufname path params fragment = .error (.noHandlerPath path) := by
    rw [Router.bufname, if_pos (by simp [h1, h2])]
  exact ⟨hb, by rw [Router.open, hb]⟩

/-- C6 witness: opening an unregistered path on a fallback-free router
fails with the no-handler error. -/
theorem open_fails_before_effects_witness :
    Router.open (newRouter "foo") host0 "nope" Option.none Option.none Option.none
      = .error (.noHandlerPath "nope") :=
  (open_fails_before_effects (newRouter "foo") host0 "nope" Option.none Option.none
    Option.none rfl rfl).2

/-- Helper: whenever the read-signal succeeds, the marker variable holds
the path component of the resolution result. -/
theorem load_writes_marker (r : Router) (plugin pfx : String) (abuf : Nat)
    (afile : String) (b b2 : BufState) (m : MatchResult)
    (hm : r.matchBuf afile = .ok m)
    (hld : Router.load r plugin pfx abuf afile b = .ok b2) :
    List.lookup "denops_router_handler_path" b2.vars = some m.path := by
  simp only [Router.load, hm] at hld
  cases hl2 : (m.handler.load { bufnr := abuf, bufname := m.bufname }) with
  | error e =>
    rw [hl2] at hld
    exact absurd hld (by simp)
  | ok u =>
    cases u
    rw [hl2] at hld
    by_cases hsv : m.handler.save.isSome
    · rw [if_pos hsv] at hld
      cases hld
      exact lookup_setVar b.vars _ m.path
    · rw [if_neg hsv] at hld
      cases hld
      exact lookup_setVar b.vars _ m.path

/-- C3: on a successful load, if the resolved handler defines `save` the
buffer becomes an `acwrite` buffer with a write intercept for exactly
this buffer that triggers exactly that handler's `save`; if it defines no
`save` the buffer becomes non-modifiable and read-only; in both cases the
marker variable is written and the modified flag and swapfile are
disabled. -/
theorem load_success_states (r : Router) (plugin pfx : String) (abuf : Nat)
    (afile : String) (b : BufState) (m : MatchResult)
    (hm : r.matchBuf afile = .ok m)
    (hl : m.handler.load { bufnr := abuf, bufname := m.bufname } = .ok ()) :
    (∀ sv, m.handler.save = some sv →
      Router.load r plugin pfx abuf afile b
        = .ok { b with
            vars := setVar b.vars "denops_router_handler_path" m.path
            swapfile := false
            modified := false
            buftype := "acwrite"
            intercepts := b.intercepts
              ++ [{ plugin := plugin, method := pfx ++ ":internal:save",
                    bufnr := abuf, file := afile }] }
      ∧ (∀ b2, Router.save r abuf afile b2
          = match sv { bufnr := abuf, bufname := m.bufname } with
            | .error e => .error e
            | .ok _ => .ok { b2 with modified := false }))
    ∧ (m.handler.save = Option.none →
      Router.load r plugin pfx abuf afile b
        = .ok { b with
            vars := setVar b.vars "denops_router_handler_path" m.path
            swapfile := false
            modified := false
            modifiable := false
            readonly := true }) := by
  constructor
  · intro sv hsv
    constructor
    · simp only [Router.load, hm, hl]
      rw [if_pos (by simp [hsv])]
    · intro b2
      simp only [Router.save, hm, hsv]
  · intro hsv
    simp only [Router.load, hm, hl]
    rw [if_neg (by simp [hsv])]

/-- C3 witness: loading `foo://w` with a writable handler yields the
`acwrite` state with the registered intercept, and the corresponding
write-signal succeeds via that handler's `save`, clearing the modified
flag. -/
theorem load_success_states_witness :
    Router.load ((newRouter "foo").handle "w" hWrite) "plug" "router" 1 "foo://w" b0
      = .ok { b0 with
          vars := [("denops_router_handler_path", "w")]
          swapfile := false
          modified := false
          buftype := "acwrite"
          intercepts := [{ plugin := "plug", method := "router:internal:save",
                           bufnr := 1, file := "foo://w" }] }
    ∧ Router.save ((newRouter "foo").handle "w" hWrite) 1 "foo://w" b0
        = .ok { b0 with modified := false } := by
  have h := (load_success_states ((newRouter "foo").handle "w" hWrite)
      "plug" "router" 1 "foo://w" b0
      { bufname := { scheme := "foo", expr := "w",
                     params := Option.none, fragment := Option.none },
        path := "w", handler := hWrite }
      rfl rfl).1 (fun _ => .ok ()) rfl
  exact ⟨h.1, h.2 b0⟩

/-- C4: the write-signal fails with the not-writable error when the
resolved handler defines no `save`; when `save` succeeds the modified
flag is cleared; when `save` throws, the error propagates and the buffer
(modified flag and content included) is left unchanged. -/
theorem save_behavior (r : Router) (abuf : Nat) (afile : String) (b : BufState)
    (m : MatchResult) (hm : r.matchBuf afile = .ok m) :
    (m.handler.save = Option.none →
      Router.save r abuf afile b = .error (.notWritable afile)
      ∧ applyOutcome (Router.save r abuf afile b) b = b)
    ∧ (∀ sv, m.handler.save = some sv →
      (sv { bufnr := abuf, bufname := m.bufname } = .ok () →
        Router.save r abuf afile b = .ok { b with modified := false })
      ∧ (∀ e, sv { bufnr := abuf, bufname := m.bufname } = .error e →
        Router.save r abuf afile b = .error e
        ∧ applyOutcome (Router.save r abuf afile b) b = b)) := by
  constructor
  · intro hsv
    have hs : Router.save r abuf afile b = .error (.notWritable afile) := by
      simp only [Router.save, hm, hsv]
    exact ⟨hs, by rw [hs]; rfl⟩
  · intro sv hsv
    constructor
    · intro hok
      simp only [Router.save, hm, hsv, hok]
    · intro e herr
      have hs : Router.save r abuf afile b = .error e := by
        simp only [Router.save, hm, hsv, herr]
      exact ⟨hs, by rw [hs]; rfl⟩

/-- C4 witness: a handler whose `save` throws makes the write-signal fail
with exactly that error while the buffer state is unchanged. -/
theorem save_behavior_witness :
    Router.save ((newRouter "foo").handle "sf" hSaveFail) 1 "foo://sf" b0
      = .error (.other "disk full")
    ∧ applyOutcome (Router.save ((newRouter "foo").handle "sf" hSaveFail) 1 "foo://sf" b0) b0
      = b0 := by
  exact ((save_behavior ((newRouter "foo").handle "sf" hSaveFail) 1 "foo://sf" b0
      { bufname := { scheme := "foo", expr := "sf",
                     params := Option.none, fragment := Option.none },
        path := "sf", handler := hSaveFail }
      rfl).2 (fun _ => .error (.other "disk full")) rfl).2 (.other "disk full") rfl

/-- C5: with no exact registration for the path and a fallback handler
set, the buffer name is built from the original requested path, that name
parses back to the original path, resolution returns the fallback handler
under the original path — exactly as if the fallback had been registered
under that literal path — and a successful load writes the original path
as the marker. -/
theorem fallback_uses_original_path (r : Router) (path : String)
    (params : Option BufnameParams) (fragment : Option String) (h : Handler)
    (hnp : findEntry r.handlers path = Option.none)
    (hf : r.defaultHandler = some h)
    (hs1 : r.scheme ≠ "") (hs2 : ':' ∉ r.scheme.data) :
    r.bufname path params fragment
      = .ok (format { scheme := r.scheme, expr := path,
                      params := params, fragment := fragment })
    ∧ parseAsBufname (format { scheme := r.scheme, expr := path,
                               params := params, fragment := fragment })
        = .ok { scheme := r.scheme, expr := path,
                params := params.map (fun ps => parseParamsL (fmtParams ps)),
                fragment := fragment }
    ∧ r.matchBuf (format { scheme := r.scheme, expr := path,
                           params := params, fragment := fragment })
        = .ok { bufname := { scheme := r.scheme, expr := path,
                             params := params.map (fun ps => parseParamsL (fmtParams ps)),
                             fragment := fragment },
                path := path, handler := h }
    ∧ (r.handle path h).matchBuf (format { scheme := r.scheme, expr := path,
                                           params := params, fragment := fragment })
        = r.matchBuf (format { scheme := r.scheme, expr := path,
                               params := params, fragment := fragment })
    ∧ (∀ plugin pfx abuf b b2,
        Router.load r plugin pfx abuf
          (format { scheme := r.scheme, expr := path,
                    params := params, fragment := fragment }) b
          = .ok b2 →
        List.lookup "denops_router_handler_path" b2.vars = some path) := by
  have hp : parseAsBufname (format { scheme := r.scheme, expr := path,
                                     params := params, fragment := fragment })
      = .ok { scheme := r.scheme, expr := path,
              params := params.map (fun ps => parseParamsL (fmtParams ps)),
              fragment := fragment } :=
    parse_format { scheme := r.scheme, expr := path,
                   params := params, fragment := fragment } hs1 hs2
  have hb : r.bufname path params fragment
      = .ok (format { scheme := r.scheme, expr := path,
                      params := params, fragment := fragment }) := by
    rw [Router.bufname, if_neg (by simp [hnp, hf])]
  have hmr : r.matchBuf (format { scheme := r.scheme, expr := path,
                                  params := params, fragment := fragment })
      = .ok { bufname := { scheme := r.scheme, expr := path,
                           params := params.map (fun ps => parseParamsL (fmtParams ps)),
                           fragment := fragment },
              path := path, handler := h } := by
    simp only [Router.matchBuf, hp]
    rw [if_neg (by simp)]
    simp only [hnp, hf]
  have hm2 : (r.handle path h).matchBuf (format { scheme := r.scheme, expr := path,
                                                  params := params, fragment := fragment })
      = .ok { bufname := { scheme := r.scheme, expr := path,
                           params := params.map (fun ps => parseParamsL (fmtParams ps)),
                           fragment := fragment },
              path := path, handler := h } := by
    simp only [Router.matchBuf, Router.handle, hp]
    rw [if_neg (by simp)]
    rw [setHandler_not_found r.handlers path h hnp]
    rw [findEntry_append_of_none r.handlers _ path hnp]
    simp [findEntry]
  refine ⟨hb, hp, hmr, hm2.trans hmr.symm, ?_⟩
  intro plugin pfx abuf b b2 hload2
  exact load_writes_marker r plugin pfx abuf _ b b2 _ hmr hload2

/-- C5 witness: a router for scheme `foo` with only a fallback handler
builds the name `foo://zz` for the unregistered path `zz` and resolves it
to the fallback handler under the literal path `zz`. -/
theorem fallback_uses_original_path_witness :
    ((newRouter "foo").handleFallback hWrite).bufname "zz" Option.none Option.none
      = .ok "foo://zz"
    ∧ ((newRouter "foo").handleFallback hWrite).matchBuf "foo://zz"
        = .ok { bufname := { scheme := "foo", expr := "zz",
                             params := Option.none, fragment := Option.none },
                path := "zz", handler := hWrite } := by
  have h := fallback_uses_original_path ((newRouter "foo").handleFallback hWrite)
    "zz" Option.none Option.none hWrite rfl rfl (by decide) (by decide)
  exact ⟨h.1, h.2.2.1⟩

end DenopsRouter
